import Mathlib

/-!
Verification development for the relations-psycopg2 adapter: a shallow
embedding of the adapter's translation engine (value encoding, schema
compilation, filter-clause building, query assembly and statement
execution) together with proofs of the spec's testable properties.

The adapter module itself is absent from the checked-out sources (only
`setup.py` and the test suite are present), so every operational
definition below is modelled from the specification (`spec.md`) and
cross-checked against the literal strings asserted by
`src/test/test_relations_psycopg2.py`; such definitions carry a doc
comment starting with `Modelled from the spec:`.
-/

namespace RelPg

/-! ## Characters and decimal digits -/
/-- The opening-brace character, built by code point. -/
def lbrace : Char := Char.ofNat 123

/-- The closing-brace character, built by code point. -/
def rbrace : Char := Char.ofNat 125

/-- The character for a single decimal digit value. -/
def dChar (d : Nat) : Char := Char.ofNat (48 + d)

/-- Numeric value of a decimal digit character. -/
def dVal (c : Char) : Nat := c.toNat - 48

/-- Whether a character is a decimal digit. -/
def isDigitCh (c : Char) : Bool := 48 ≤ c.toNat && c.toNat ≤ 57

/-- Decimal digit characters of a natural number, least significant
first, with fuel bounding the recursion depth. -/
def natCharsRev : Nat → Nat → List Char
  | 0, _ => []
  | _, 0 => []
  | fuel + 1, n + 1 => dChar ((n + 1) % 10) :: natCharsRev fuel ((n + 1) / 10)

/-- Decimal digit characters of a natural number, most significant first. -/
def natChars (n : Nat) : List Char :=
  if n = 0 then [dChar 0] else (natCharsRev n n).reverse

/-- Decimal digit characters of an integer, with a leading minus sign
when negative. -/
def intChars (n : Int) : List Char :=
  if n < 0 then '-' :: natChars n.natAbs else natChars n.natAbs

/-- Value of a digit-character list read most significant first. -/
def digitsVal (ds : List Char) : Nat := Nat.ofDigits 10 ((ds.map dVal).reverse)

/-- Whether the remainder of the input may legally follow a decimal
number: either it is exhausted or its next character is not a digit. -/
def restOkB : List Char → Bool
  | [] => true
  | c :: _ => !isDigitCh c

/-- Split a leading run of decimal digit characters off the input. -/
def takeDigits : List Char → List Char × List Char
  | [] => ([], [])
  | c :: cs =>
    if isDigitCh c then
      let p := takeDigits cs
      (c :: p.1, p.2)
    else ([], c :: cs)

/-- Read a decimal natural number off the front of the input. -/
def parseNatCh (cs : List Char) : Option (Nat × List Char) :=
  let p := takeDigits cs
  if p.1 = [] then none else some (digitsVal p.1, p.2)

/-! ## JSON values

The adapter serializes sequence- and mapping-typed field values with
`json.dumps` and relies on the driver's symmetric decoding
(spec §4.1).  Structured values are modelled by a closed JSON value
type covering null, booleans, integers, strings, arrays and objects. -/
mutual

inductive Json where
  | null
  | bool (b : Bool)
  | int (n : Int)
  | str (s : String)
  | arr (elems : JsonList)
  | obj (members : JsonObj)

inductive JsonList where
  | nil
  | cons (hd : Json) (tl : JsonList)

inductive JsonObj where
  | nil
  | cons (key : String) (val : Json) (tl : JsonObj)

end

/-- Escape a character for a JSON string literal: quote and backslash
are backslash-escaped, everything else passes through. -/
def escapeChar (c : Char) : List Char :=
  if c = '"' ∨ c = '\\' then ['\\', c] else [c]

/-- Escape every character of a JSON string body. -/
def escapeChars : List Char → List Char
  | [] => []
  | c :: cs => escapeChar c ++ escapeChars cs

/-- The serialized text of the null value. -/
def nullChars : List Char := ['n', 'u', 'l', 'l']

/-- The serialized text of the true value. -/
def trueChars : List Char := ['t', 'r', 'u', 'e']

/-- The serialized text of the false value. -/
def falseChars : List Char := ['f', 'a', 'l', 's', 'e']

mutual

/-- Modelled from the spec: the serialized structured-text form of a
sequence/mapping value, as `json.dumps` renders it (the adapter module
holding the `encode` hook is absent from the sources). -/
def dumpJ : Json → List Char
  | .null => nullChars
  | .bool true => trueChars
  | .bool false => falseChars
  | .int n => intChars n
  | .str s => '"' :: (escapeChars s.data ++ ['"'])
  | .arr l => '[' :: (dumpItems l ++ [']'])
  | .obj m => lbrace :: (dumpMembers m ++ [rbrace])
termination_by structural j => j

/-- Array elements joined by comma-space, as `json.dumps` writes them. -/
def dumpItems : JsonList → List Char
  | .nil => []
  | .cons j .nil => dumpJ j
  | .cons j rest => dumpJ j ++ ',' :: ' ' :: dumpItems rest
termination_by structural l => l

/-- Object members joined by comma-space, each a quoted key, a
colon-space separator, and the value. -/
def dumpMembers : JsonObj → List Char
  | .nil => []
  | .cons k v .nil => '"' :: (escapeChars k.data ++ '"' :: ':' :: ' ' :: dumpJ v)
  | .cons k v rest =>
    ('"' :: (escapeChars k.data ++ '"' :: ':' :: ' ' :: dumpJ v)) ++
      ',' :: ' ' :: dumpMembers rest
termination_by structural m => m

end

/-- One object member: quoted key, colon-space, value. -/
def dumpKV (k : String) (v : Json) : List Char :=
  '"' :: (escapeChars k.data ++ '"' :: ':' :: ' ' :: dumpJ v)

/-- The serialized structured-text form as a `String`. -/
def dumpsStr (j : Json) : String := ⟨dumpJ j⟩

mutual

/-- Fuel measure for the JSON reader: structural size of a value. -/
def sizeJ : Json → Nat
  | .arr l => sizeL l + 1
  | .obj m => sizeM m + 1
  | _ => 1

/-- Fuel measure for an array item list. -/
def sizeL : JsonList → Nat
  | .nil => 1
  | .cons j rest => sizeJ j + sizeL rest + 1
termination_by structural l => l

/-- Fuel measure for an object member list. -/
def sizeM : JsonObj → Nat
  | .nil => 1
  | .cons _ v rest => sizeJ v + sizeM rest + 1
termination_by structural m => m

end

/-- Read a JSON string body up to its closing quote, undoing the
backslash escapes `escapeChars` writes. -/
def parseStrChars : List Char → Option (List Char × List Char)
  | [] => none
  | c :: rest =>
    if c = '"' then some ([], rest)
    else if c = '\\' then
      match rest with
      | [] => none
      | e :: rest2 => (parseStrChars rest2).map (fun p => (e :: p.1, p.2))
    else (parseStrChars rest).map (fun p => (c :: p.1, p.2))

mutual

/-- Fuel-bounded JSON value reader, the driver-side decoding assumed
symmetric by spec §4.1.  It need only read back what `dumpJ` writes. -/
def parseV : Nat → List Char → Option (Json × List Char)
  | 0, _ => none
  | _ + 1, [] => none
  | fuel + 1, c :: cs =>
    if c = 'n' then
      match cs with
      | 'u' :: 'l' :: 'l' :: rest => some (.null, rest)
      | _ => none
    else if c = 't' then
      match cs with
      | 'r' :: 'u' :: 'e' :: rest => some (.bool true, rest)
      | _ => none
    else if c = 'f' then
      match cs with
      | 'a' :: 'l' :: 's' :: 'e' :: rest => some (.bool false, rest)
      | _ => none
    else if c = '"' then
      (parseStrChars cs).map (fun p => (.str ⟨p.1⟩, p.2))
    else if c = '[' then
      (parseItems fuel cs).map (fun p => (.arr p.1, p.2))
    else if c = lbrace then
      (parseMembers fuel cs).map (fun p => (.obj p.1, p.2))
    else if c = '-' then
      (parseNatCh cs).map (fun p => (.int (-(p.1 : Int)), p.2))
    else if isDigitCh c then
      (parseNatCh (c :: cs)).map (fun p => (.int (p.1 : Int), p.2))
    else none

/-- Read array items after the opening bracket, consuming the closing
bracket. -/
def parseItems : Nat → List Char → Option (JsonList × List Char)
  | 0, _ => none
  | _ + 1, [] => none
  | fuel + 1, c :: cs =>
    if c = ']' then some (.nil, cs)
    else
      match parseV fuel (c :: cs) with
      | none => none
      | some (j, r) =>
        match r with
        | [] => none
        | d :: r2 =>
          if d = ']' then some (.cons j .nil, r2)
          else if d = ',' then
            match r2 with
            | ' ' :: r3 => (parseItems fuel r3).map (fun p => (.cons j p.1, p.2))
            | _ => none
          else none

/-- Read object members after the opening brace, consuming the closing
brace. -/
def parseMembers : Nat → List Char → Option (JsonObj × List Char)
  | 0, _ => none
  | _ + 1, [] => none
  | fuel + 1, c :: cs =>
    if c = rbrace then some (.nil, cs)
    else if c = '"' then
      match parseStrChars cs with
      | none => none
      | some (k, r) =>
        match r with
        | ':' :: ' ' :: r2 =>
          match parseV fuel r2 with
          | none => none
          | some (v, r3) =>
            match r3 with
            | [] => none
            | d :: r4 =>
              if d = rbrace then some (.cons ⟨k⟩ v .nil, r4)
              else if d = ',' then
                match r4 with
                | ' ' :: r5 =>
                  (parseMembers fuel r5).map (fun p => (.cons ⟨k⟩ v p.1, p.2))
                | _ => none
              else none
        | _ => none
    else none

end

/-- Modelled from the spec: driver-side decoding of a stored
structured-text column value back into a structured value.  Spec §4.1
states decoding is symmetric to encoding and handled by the
driver/result layer, which is outside the checked-in sources. -/
def parseTop (s : String) : Option Json :=
  match parseV (2 * s.length + 2) s.data with
  | some (j, []) => some j
  | _ => none

/-! ## Adapter data model -/
/-- The single-quote character, built by code point. -/
def squote : Char := Char.ofNat 39

/-- Decimal string of a natural number. -/
def natStr (n : Nat) : String := ⟨natChars n⟩

/-- Decimal string of an integer. -/
def intStr (n : Int) : String := ⟨intChars n⟩

/-- Decimal characters of the float value `mant / 10 ^ dec`, with the
decimal point placed `dec` digits from the right and a trailing zero
when `dec = 0`. -/
def floatChars (mant : Int) (dec : Nat) : List Char :=
  let ds0 := natChars mant.natAbs
  let ds := if ds0.length ≤ dec
    then List.replicate (dec + 1 - ds0.length) (dChar 0) ++ ds0 else ds0
  (if mant < 0 then ['-'] else []) ++ ds.take (ds.length - dec) ++
    '.' :: (if dec = 0 then [dChar 0] else ds.drop (ds.length - dec))

/-- In-memory field values the adapter handles: the scalar kinds plus
structured (sequence/mapping) values.  A float is carried as a scaled
decimal `mant / 10 ^ dec`, which is how the literal renders. -/
inductive Value where
  | null
  | bool (b : Bool)
  | int (n : Int)
  | float (mant : Int) (dec : Nat)
  | str (s : String)
  | json (j : Json)

/-- The closed semantic field kinds of spec §3 and §9 (boolean,
integer, float, text, sequence, mapping). -/
inductive Kind where
  | bool
  | int
  | float
  | str
  | list
  | dict
deriving DecidableEq

/-- A field default: absent, a static literal, or deferred (callable,
resolved at write time). -/
inductive Default where
  | none
  | static (v : Value)
  | callable

/-- A pending per-field filter: the operator tags of spec §4.3
(`in`, `ne`, `like`, `gt`, `gte`, `lt`, `lte`, and default equality). -/
inductive Filter where
  | isIn (vs : List Value)
  | notIn (vs : List Value)
  | like (v : Value)
  | gt (v : Value)
  | gte (v : Value)
  | lt (v : Value)
  | lte (v : Value)
  | eq (v : Value)

/-- Modelled from the spec: the field descriptor consumed from the
abstract model framework (spec §6), with the attributes the adapter
reads — semantic kind, storage name, length (default 255),
nullability (`none` in the source), default, primary-key / serial /
readonly / replace flags, explicit raw definition override, pending
filter, and current value with its changed flag. -/
structure Field where
  kind : Kind
  store : String
  length : Nat := 255
  noneOk : Bool := true
  default : Default := .none
  primary_key : Bool := false
  serial : Bool := false
  readonly : Bool := false
  replace : Bool := false
  definition : Option String := Option.none
  filter : Option Filter := Option.none
  value : Value := .null
  changed : Bool := false

/-- Double-quote an identifier, PostgreSQL style. -/
def quoteIdent (s : String) : String := "\"" ++ s ++ "\""

/-- Escape a string for a single-quoted SQL literal by doubling every
single quote. -/
def escSqlChars : List Char → List Char
  | [] => []
  | c :: cs =>
    if c = squote then squote :: squote :: escSqlChars cs
    else c :: escSqlChars cs

/-- Wrap a string in single quotes. -/
def sqlQuoted (s : String) : String := ⟨squote :: s.data ++ [squote]⟩

/-- Python's `str()` of a boolean, which is how a boolean default is
interpolated into DDL (the tests assert `DEFAULT False`). -/
def pyBoolStr (b : Bool) : String := if b then "True" else "False"

/-- Modelled from the spec: the dialect literal for a static default
(spec §4.2 — true/false for boolean, numeric literal, single-quoted
escaped string, serialized structured-text for sequence/mapping). -/
def renderDefault : Value → String
  | .null => "None"
  | .bool b => pyBoolStr b
  | .int n => intStr n
  | .float m e => ⟨floatChars m e⟩
  | .str s => sqlQuoted ⟨escSqlChars s.data⟩
  | .json j => sqlQuoted (dumpsStr j)

/-- Modelled from the spec: the base SQL type of a field (spec §4.2 —
boolean→BOOLEAN, integer→INT or SERIAL when both auto-increment and
primary-key, float→FLOAT, text→VARCHAR(length), sequence/mapping→JSON). -/
def baseType (f : Field) : String :=
  match f.kind with
  | .bool => "BOOLEAN"
  | .int => if f.serial && f.primary_key then "SERIAL" else "INT"
  | .float => "FLOAT"
  | .str => "VARCHAR(" ++ natStr f.length ++ ")"
  | .list => "JSON"
  | .dict => "JSON"

/-- Whether a field carries any default, static or deferred. -/
def hasDefault : Default → Bool
  | .none => false
  | _ => true

/-- Modelled from the spec: the column-definition text of one field
(spec §4.2): an explicit raw definition is emitted verbatim; otherwise
the quoted store, the base type, `NOT NULL` when null is disallowed or
any default is carried, a `DEFAULT` literal clause only for static
defaults, and `PRIMARY KEY` for primary-key fields. -/
def fieldDefinition (f : Field) : String :=
  match f.definition with
  | some d => d
  | Option.none =>
    quoteIdent f.store ++ " " ++ baseType f ++
      (if !f.noneOk || hasDefault f.default then " NOT NULL" else "") ++
      (match f.default with
       | .static v => " DEFAULT " ++ renderDefault v
       | _ => "") ++
      (if f.primary_key then " PRIMARY KEY" else "")

/-- Modelled from the spec: the per-field `define` hook appends one
column definition to the accumulator (spec §6). -/
def field_define (f : Field) (definitions : List String) : List String :=
  definitions ++ [fieldDefinition f]

/-! ## Query fragments and per-field retrieve -/
/-- Modelled from the spec: the query template object (spec §6)
accumulating WHERE / ORDER BY / LIMIT text fragments. -/
structure Query where
  selects : String := "*"
  froms : String := ""
  wheres : String := ""
  order_bys : String := ""
  limits : String := ""

/-- Join a new fragment onto an accumulated one with a separator,
dropping the separator when the accumulator is empty. -/
def joinFrag (sep old frag : String) : String :=
  if old = "" then frag else old ++ sep ++ frag

/-- Accumulate a WHERE fragment (AND-joined). -/
def addWheres (q : Query) (s : String) : Query :=
  { q with wheres := joinFrag " AND " q.wheres s }

/-- Accumulate an ORDER BY fragment (comma-joined). -/
def addOrderBys (q : Query) (s : String) : Query :=
  { q with order_bys := joinFrag ", " q.order_bys s }

/-- Accumulate a LIMIT fragment (space-joined). -/
def addLimits (q : Query) (s : String) : Query :=
  { q with limits := joinFrag " " q.limits s }

/-- A comma-joined run of `%s` placeholders, one per bound value. -/
def placeholders : Nat → String
  | 0 => ""
  | 1 => "%s"
  | n + 2 => "%s," ++ placeholders (n + 1)

/-- Python's `str()` of a value, used when interpolating a filter value
into a `%…%` LIKE pattern. -/
def plainStr : Value → String
  | .null => "None"
  | .bool b => pyBoolStr b
  | .int n => intStr n
  | .float m e => ⟨floatChars m e⟩
  | .str s => s
  | .json j => dumpsStr j

/-- The percent-wrapped LIKE pattern for a filter value. -/
def likePattern (s : String) : String := "%" ++ s ++ "%"

/-- Modelled from the spec: the per-field `retrieve` hook (spec §4.3's
operator table): appends one WHERE fragment and its bound values for
the field's pending filter, with `%s` placeholders as the tests
assert. -/
def field_retrieve (f : Field) (q : Query) (values : List Value) :
    Query × List Value :=
  match f.filter with
  | Option.none => (q, values)
  | some (.isIn vs) =>
    (addWheres q (quoteIdent f.store ++ " IN (" ++ placeholders vs.length ++ ")"),
     values ++ vs)
  | some (.notIn vs) =>
    (addWheres q
      (quoteIdent f.store ++ " NOT IN (" ++ placeholders vs.length ++ ")"),
     values ++ vs)
  | some (.like v) =>
    (addWheres q (quoteIdent f.store ++ "::varchar(255) ILIKE %s"),
     values ++ [.str (likePattern (plainStr v))])
  | some (.gt v) => (addWheres q (quoteIdent f.store ++ ">%s"), values ++ [v])
  | some (.gte v) => (addWheres q (quoteIdent f.store ++ ">=%s"), values ++ [v])
  | some (.lt v) => (addWheres q (quoteIdent f.store ++ "<%s"), values ++ [v])
  | some (.lte v) => (addWheres q (quoteIdent f.store ++ "<=%s"), values ++ [v])
  | some (.eq v) => (addWheres q (quoteIdent f.store ++ "=%s"), values ++ [v])

/-! ## Value encoding and driver decoding -/
/-- Modelled from the spec: per-value encoding (spec §4.1) — a
sequence/mapping-typed value is serialized to its structured-text form
only when non-null; null and all other kinds pass through unchanged. -/
def encodeValue (k : Kind) (v : Value) : Value :=
  match k, v with
  | .list, .json j => .str (dumpsStr j)
  | .dict, .json j => .str (dumpsStr j)
  | _, v => v

/-- Modelled from the spec: the driver-side decoding applied when a
row is materialized (spec §4.1 calls it symmetric and leaves it to the
driver/result layer): a stored structured-text column is read back
into the structured value. -/
def decodeValue (k : Kind) (v : Value) : Value :=
  match k, v with
  | .list, .str s =>
    (match parseTop s with
     | some j => .json j
     | Option.none => .str s)
  | .dict, .str s =>
    (match parseTop s with
     | some j => .json j
     | Option.none => .str s)
  | _, v => v

/-- Look up the kind of the field with a given storage name. -/
def kindOf (fields : List Field) (store : String) : Option Kind :=
  match fields with
  | [] => Option.none
  | f :: rest => if f.store = store then some f.kind else kindOf rest store

/-- Modelled from the spec: the `encode` hook (spec §4.1) — walk the
model's ordered fields and produce the store-ready value mapping. -/
def encode (fields : List Field) (values : List (String × Value)) :
    List (String × Value) :=
  values.map (fun kv =>
    match kindOf fields kv.1 with
    | some k => (kv.1, encodeValue k kv.2)
    | Option.none => kv)

/-- Modelled from the spec: row materialization (spec §4.5) — the
driver decodes each stored column back to its in-memory value. -/
def decodeRow (fields : List Field) (values : List (String × Value)) :
    List (String × Value) :=
  values.map (fun kv =>
    match kindOf fields kv.1 with
    | some k => (kv.1, decodeValue k kv.2)
    | Option.none => kv)

/-- Whether a value is one the framework stores in a field of the
given kind: a sequence/mapping field holds a structured value or null. -/
def kindOk (k : Kind) (v : Value) : Bool :=
  match k, v with
  | .list, .json _ => true
  | .list, .null => true
  | .list, _ => false
  | .dict, .json _ => true
  | .dict, .null => true
  | .dict, _ => false
  | _, _ => true

/-! ## Relationship-traversal filtering (`model_like`) -/
/-- Lower-case a character list. -/
def lowers (cs : List Char) : List Char := cs.map Char.toLower

/-- Whether the first list is a prefix of the second. -/
def prefixOfCh : List Char → List Char → Bool
  | [], _ => true
  | _ :: _, [] => false
  | a :: as, b :: bs => a = b && prefixOfCh as bs

/-- Whether the needle occurs as a contiguous run inside the hay. -/
def containsSub (needle : List Char) : List Char → Bool
  | [] => needle.isEmpty
  | c :: t => prefixOfCh needle (c :: t) || containsSub needle t

/-- Case-insensitive containment: the semantics of `ILIKE ⟨%term%⟩`. -/
def ilikeMatch (term s : String) : Bool :=
  containsSub (lowers term.data) (lowers s.data)

/-- One entry of the model's like-filterable label list: either one of
the model's own fields, or a declared parent relationship carrying the
child's foreign-key store and the parent table rows `(id, label)`. -/
inductive Label where
  | own (store : String)
  | parent (childField : String) (parentRows : List (Int × String))

/-- Modelled from the spec: the model descriptor state the adapter
reads and writes (spec §3 and §6): name, display-label field, pending
sort / limit / offset / like requests, chunk bound, like-filterable
labels, the overflow flag, and the primary-key declaration. -/
structure Model where
  name : String := ""
  label : String := ""
  sort : Option (List (Bool × String)) := Option.none
  limit : Option Nat := Option.none
  offset : Nat := 0
  like : Option String := Option.none
  chunk : Option Nat := Option.none
  labels : List Label := []
  overflow : Bool := false
  pkField : Option String := Option.none

/-- Modelled from the spec: one OR-fragment of the relationship
traversal filter (spec §4.3): an own label yields the field's ILIKE
clause binding the percent-wrapped term; a parent label issues the
bounded sub-lookup against the parent rows, yields a foreign-key
membership clause binding the matching parent ids, and reports whether
the sub-lookup's row count reached the chunk bound. -/
def likeFragment (term : String) (chunk : Option Nat) :
    Label → String × List Value × Bool
  | .own store =>
    (quoteIdent store ++ "::varchar(255) ILIKE %s",
     [Value.str (likePattern term)], false)
  | .parent childField parentRows =>
    let matching := parentRows.filter (fun r => ilikeMatch term r.2)
    let returned := match chunk with
      | Option.none => matching
      | some c => matching.take c
    (quoteIdent childField ++ " IN (" ++ placeholders returned.length ++ ")",
     returned.map (fun r => Value.int r.1),
     match chunk with
     | Option.none => false
     | some c => returned.length == c)

/-- OR-join a list of predicate fragments. -/
def joinOr : List String → String
  | [] => ""
  | [s] => s
  | s :: rest => s ++ " OR " ++ joinOr rest

/-- Modelled from the spec: the `model_like` hook (spec §4.3): with no
like term it leaves everything unchanged; otherwise it OR-joins the
fragment of every label, parenthesizes the whole predicate, extends
the bound values in label order, and ORs each parent sub-lookup's
saturation into the model's overflow flag. -/
def model_like (m : Model) (q : Query) (values : List Value) :
    Model × Query × List Value :=
  match m.like with
  | Option.none => (m, q, values)
  | some term =>
    let frags := m.labels.map (likeFragment term m.chunk)
    ({ m with overflow := frags.foldl (fun acc fr => acc || fr.2.2) m.overflow },
     addWheres q ("(" ++ joinOr (frags.map (·.1)) ++ ")"),
     frags.foldl (fun acc fr => acc ++ fr.2.1) values)

/-! ## Sort and limit -/
/-- Render one ORDER BY key: quoted column, `DESC` when descending. -/
def sortClause (k : Bool × String) : String :=
  quoteIdent k.2 ++ (if k.1 then " DESC" else "")

/-- Comma-join rendered fragments. -/
def joinComma : List String → String
  | [] => ""
  | [s] => s
  | s :: rest => s ++ ", " ++ joinComma rest

/-- Modelled from the spec: the `model_sort` hook (spec §4.4): an
explicit sort request is consumed (cleared after use) and rendered per
field; absent a request the declared display label is used ascending. -/
def model_sort (m : Model) (q : Query) : Model × Query :=
  let keys := match m.sort with
    | some ks => ks
    | Option.none => [(false, m.label)]
  ({ m with sort := Option.none },
   addOrderBys q (joinComma (keys.map sortClause)))

/-- Modelled from the spec: the `model_limit` hook (spec §4.4): a
requested limit emits `%s` bound to the limit, followed by `OFFSET %s`
bound to the offset only when an offset was requested; no request, no
clause.  The stored limit/offset request is left unchanged. -/
def model_limit (m : Model) (q : Query) (values : List Value) :
    Model × Query × List Value :=
  match m.limit with
  | Option.none => (m, q, values)
  | some l =>
    if m.offset != 0 then
      (m, addLimits (addLimits q "%s") "OFFSET %s",
       values ++ [.int l, .int m.offset])
    else (m, addLimits q "%s", values ++ [.int l])

/-! ## Retrieve -/
/-- A materialized row: storage name to value. -/
def Row := List (String × Value)

/-- The store's SELECT semantics for the emitted LIMIT/OFFSET clause:
the adapter emits OFFSET only together with LIMIT, so without a limit
all matching rows return; with one, the offset is skipped and at most
`limit` rows return. -/
def sqlSelect (matched : List Row) (limit : Option Nat) (offset : Nat) :
    List Row :=
  match limit with
  | Option.none => matched
  | some l => (matched.drop offset).take l

/-- Modelled from the spec: many-row retrieve (spec §4.5): execute the
compiled query, materialize the fetched rows, and mark the model with
the overflow flag when the fetched row count reaches an active limit. -/
def model_retrieve_many (m : Model) (matched : List Row) :
    Model × List Row :=
  let fetched := sqlSelect matched m.limit m.offset
  ({ m with overflow := match m.limit with
      | Option.none => false
      | some l => fetched.length == l },
   fetched)

/-- Modelled from the spec: single-row retrieve (spec §4.5 / §7):
more than one match is a cardinality error naming the model; zero
matches is one too, unless the retrieve-or-None mode was requested, in
which case the empty result is returned. -/
def model_retrieve_one (m : Model) (verify : Bool) (matched : List Row) :
    Except String (Option Row) :=
  if matched.length > 1 then .error (m.name ++ ": more than one retrieved")
  else
    match matched with
    | [] =>
      if verify then .error (m.name ++ ": none retrieved")
      else .ok Option.none
    | r :: _ => .ok (some r)

/-! ## Update and delete -/
/-- Look up a storage name in an association list. -/
def lookupAssoc (kvs : List (String × Value)) (k : String) : Option Value :=
  match kvs with
  | [] => Option.none
  | kv :: rest => if kv.1 = k then some kv.2 else lookupAssoc rest k

/-- Modelled from the spec: the mutable state `model_update` /
`model_delete` read (spec §4.5): the model name for error messages,
the primary-key declaration (absent when the model declares none), the
current filter state, and the pending changed values. -/
structure MutModel where
  name : String := ""
  pkField : Option String := Option.none
  filters : List (String × Int) := []
  sets : List (String × Value) := []

/-- Whether a row satisfies every integer-equality filter. -/
def rowMatchesInt (filters : List (String × Int)) (r : Row) : Bool :=
  filters.all (fun kv =>
    match lookupAssoc r kv.1 with
    | some (.int n) => n == kv.2
    | _ => false)

/-- Apply the pending changed values to one row. -/
def applySets (sets : List (String × Value)) (r : Row) : Row :=
  r.map (fun kv =>
    match lookupAssoc sets kv.1 with
    | some v => (kv.1, v)
    | Option.none => kv)

/-- Modelled from the spec: the `model_update` hook (spec §4.5 / §7):
a model lacking any primary-key declaration fails with the named
mutation-without-identity error before touching the store; otherwise
rows matching the current filter state are rewritten and the affected
row count returned. -/
def model_update (m : MutModel) (db : List Row) :
    Except String Nat × List Row :=
  match m.pkField with
  | Option.none => (.error (m.name ++ ": nothing to update from"), db)
  | some _ =>
    ((.ok (db.filter (rowMatchesInt m.filters)).length),
     db.map (fun r => if rowMatchesInt m.filters r then applySets m.sets r else r))

/-- Modelled from the spec: the `model_delete` hook (spec §4.5 / §7):
a model lacking any primary-key declaration fails with the named
mutation-without-identity error before touching the store; otherwise
rows matching the current filter state are removed and the affected
row count returned. -/
def model_delete (m : MutModel) (db : List Row) :
    Except String Nat × List Row :=
  match m.pkField with
  | Option.none => (.error (m.name ++ ": nothing to delete from"), db)
  | some _ =>
    ((.ok (db.filter (rowMatchesInt m.filters)).length),
     db.filter (fun r => !rowMatchesInt m.filters r))

/-! ## Create, cascade and bulk -/
/-- The per-record action state: pending-create before the row exists,
pending-update once it does (spec §3). -/
inductive Action where
  | create
  | update
deriving DecidableEq

/-- An in-memory child instance attached to a parent: its data value,
its foreign-key field (unset until the parent key is known), and its
action state. -/
structure ChildInst where
  name : String
  simple_id : Option Int := Option.none
  action : Action := .create

/-- An in-memory parent instance with its attached, unsaved children. -/
structure ParentInst where
  name : String
  id : Option Int := Option.none
  action : Action := .create
  children : List ChildInst := []

/-- One executed INSERT, recorded in order so statement ordering is
provable. -/
inductive Stmt where
  | insertParentRow (id : Int) (name : String)
  | insertChildRow (fk : Int) (name : String)
deriving DecidableEq

/-- The store: the parent table rows `(id, name)`, the child table
rows `(foreign-key, name)`, the serial sequence, and the executed
statement trace. -/
structure DB where
  parentRows : List (Int × String) := []
  childRows : List (Int × String) := []
  nextId : Int := 1
  trace : List Stmt := []

/-- Insert one child row, back-filling the parent key onto the
instance and marking it update-pending. -/
def createChild (pid : Int) (db : DB) (c : ChildInst) : DB × ChildInst :=
  ({ db with
      childRows := db.childRows ++ [(pid, c.name)]
      trace := db.trace ++ [.insertChildRow pid c.name] },
   { c with
      simple_id := some pid
      action := .update })

/-- Cascade an ordered list of children. -/
def createChildren (pid : Int) : DB → List ChildInst → DB × List ChildInst
  | db, [] => (db, [])
  | db, c :: rest =>
    let p := createChild pid db c
    let p2 := createChildren pid p.1 rest
    (p2.1, p.2 :: p2.2)

/-- Modelled from the spec: the `model_create` hook for one instance
(spec §4.5): insert the parent row, retrieve the generated key and
write it back, mark the instance update-pending, then cascade — assign
the key onto every attached child's foreign-key field and create the
children. -/
def model_create (db : DB) (p : ParentInst) : DB × ParentInst :=
  let pid := db.nextId
  let db1 := { db with
    parentRows := db.parentRows ++ [(pid, p.name)]
    nextId := pid + 1
    trace := db.trace ++ [.insertParentRow pid p.name] }
  let r := createChildren pid db1 p.children
  (r.1, { p with
    id := some pid
    action := .update
    children := r.2 })

/-- A bulk collection: the list of added, not yet persisted instances
(`_models` in the source). -/
structure Bulk where
  pending : List ParentInst := []

/-- Create every pending instance in order. -/
def createEach : DB → List ParentInst → DB × List ParentInst
  | db, [] => (db, [])
  | db, p :: rest =>
    let r := model_create db p
    let r2 := createEach r.1 rest
    (r2.1, r.2 :: r2.2)

/-- Modelled from the spec and the bulk-create test: bulk create
persists every added instance, then empties the collection's pending
model list rather than retaining the created instances. -/
def model_create_bulk (db : DB) (b : Bulk) : DB × Bulk :=
  ((createEach db b.pending).1, { b with pending := [] })

/-- Whether every value of a row is one its field's kind can store
(sequence/mapping fields hold structured values or null). -/
def rowOk (fields : List Field) (values : List (String × Value)) : Bool :=
  values.all (fun kv =>
    match kindOf fields kv.1 with
    | some k => kindOk k kv.2
    | Option.none => true)

/-- The parent rows a bulk create of the given instances appends:
serial keys counting up from `start`. -/
def bulkRows (start : Int) : List ParentInst → List (Int × String)
  | [] => []
  | p :: rest => (start, p.name) :: bulkRows (start + 1) rest

/-- The unit table of the test scenario: rows "stuff" (id 1) and
"people" (id 2). -/
def unitParentRows : List (Int × String) := [(1, "stuff"), (2, "people")]

/-- The single row matching the filter `name="people"` in the test's
pagination scenario. -/
def peopleRow : Row := [("id", Value.int 2), ("name", Value.str "people")]

/-- The ordered fields of the structured-value round-trip scenario. -/
def metaFields : List Field :=
  [{ kind := .str, store := "name" },
   { kind := .list, store := "stuff" },
   { kind := .dict, store := "things" }]

/-- The in-memory values of the structured-value round-trip scenario:
a text value, a one-element sequence and a one-entry mapping. -/
def metaValues : List (String × Value) :=
  [("name", .str "yep"),
   ("stuff", .json (.arr (.cons (.int 1) .nil))),
   ("things", .json (.obj (.cons "a" (.int 1) .nil)))]

/-- The bounded parent-id sub-lookup of the relationship-traversal
filter: the parent rows whose label matches the like term, truncated
at the chunk bound when one is active. -/
def subLookup (rows : List (Int × String)) (term : String)
    (chunk : Option Nat) : List (Int × String) :=
  match chunk with
  | Option.none => rows.filter (fun r => ilikeMatch term r.2)
  | some c => (rows.filter (fun r => ilikeMatch term r.2)).take c

/-! ## Theorems -/

theorem dVal_dChar : ∀ d < 10, dVal (dChar d) = d := by decide

theorem isDigitCh_dChar : ∀ d < 10, isDigitCh (dChar d) = true := by decide

theorem natCharsRev_ne_nil (fuel n : Nat) (hf : 1 ≤ fuel) (hn : 1 ≤ n) :
    natCharsRev fuel n ≠ [] := by
  rcases fuel with _ | f
  · omega
  · rcases n with _ | m
    · omega
    · simp [natCharsRev]

theorem natChars_ne_nil (n : Nat) : natChars n ≠ [] := by
  unfold natChars
  split
  · simp
  · rename_i h
    simp only [ne_eq, List.reverse_eq_nil_iff]
    exact natCharsRev_ne_nil n n (by omega) (by omega)

theorem mem_natCharsRev_digit :
    ∀ fuel n c, c ∈ natCharsRev fuel n → isDigitCh c = true := by
  intro fuel
  induction fuel with
  | zero => intro n c h; simp [natCharsRev] at h
  | succ f ih =>
    intro n c h
    cases n with
    | zero => simp [natCharsRev] at h
    | succ m =>
      simp only [natCharsRev, List.mem_cons] at h
      rcases h with rfl | h
      · exact isDigitCh_dChar _ (Nat.mod_lt _ (by omega))
      · exact ih _ _ h

theorem mem_natChars_digit {n : Nat} {c : Char} (h : c ∈ natChars n) :
    isDigitCh c = true := by
  unfold natChars at h
  split at h
  · rcases List.mem_singleton.mp h with rfl
    decide
  · rw [List.mem_reverse] at h
    exact mem_natCharsRev_digit n n c h

theorem ofDigits_natCharsRev : ∀ fuel n, n ≤ fuel →
    Nat.ofDigits 10 ((natCharsRev fuel n).map dVal) = n := by
  intro fuel
  induction fuel with
  | zero =>
    intro n h
    have : n = 0 := by omega
    subst this
    simp [natCharsRev]
  | succ f ih =>
    intro n h
    cases n with
    | zero => simp [natCharsRev]
    | succ m =>
      simp only [natCharsRev, List.map_cons, Nat.ofDigits_cons]
      rw [dVal_dChar _ (Nat.mod_lt _ (by omega)), ih ((m + 1) / 10) (by omega)]
      omega

theorem digitsVal_natChars (n : Nat) : digitsVal (natChars n) = n := by
  unfold digitsVal natChars
  split
  · rename_i h
    subst h
    decide
  · rw [List.map_reverse, List.reverse_reverse]
    exact ofDigits_natCharsRev n n le_rfl

theorem takeDigits_append (ds rest : List Char)
    (hds : ∀ c ∈ ds, isDigitCh c = true) (hrest : restOkB rest = true) :
    takeDigits (ds ++ rest) = (ds, rest) := by
  induction ds with
  | nil =>
    cases rest with
    | nil => rfl
    | cons c cs =>
      simp only [restOkB, Bool.not_eq_true'] at hrest
      simp [takeDigits, hrest]
  | cons c cs ih =>
    have hc : isDigitCh c = true := hds c (List.mem_cons_self c cs)
    have ih' := ih (fun x hx => hds x (List.mem_cons_of_mem c hx))
    simp only [List.cons_append, takeDigits, hc, if_true, List.append_eq, ih']

theorem parseNatCh_natChars (n : Nat) (rest : List Char)
    (hrest : restOkB rest = true) :
    parseNatCh (natChars n ++ rest) = some (n, rest) := by
  have h := takeDigits_append (natChars n) rest
    (fun c hc => mem_natChars_digit hc) hrest
  simp only [parseNatCh, h, digitsVal_natChars, natChars_ne_nil n, if_false]

theorem parseStrChars_escape (s rest : List Char) :
    parseStrChars (escapeChars s ++ '"' :: rest) = some (s, rest) := by
  induction s with
  | nil =>
    rw [show escapeChars [] = [] from rfl, List.nil_append, parseStrChars.eq_def]
    simp
  | cons c cs ih =>
    by_cases hc : c = '"' ∨ c = '\\'
    · have he : escapeChar c = ['\\', c] := by rw [escapeChar, if_pos hc]
      simp only [escapeChars, he, List.cons_append, List.nil_append, List.append_eq]
      rw [parseStrChars]
      rw [if_neg (by decide), if_pos rfl]
      rw [ih]
      rfl
    · have hdq : ¬ c = '"' := fun h => hc (Or.inl h)
      have hbs : ¬ c = '\\' := fun h => hc (Or.inr h)
      have he : escapeChar c = [c] := by rw [escapeChar, if_neg hc]
      simp only [escapeChars, he, List.cons_append, List.nil_append, List.append_eq]
      rw [parseStrChars.eq_def]
      simp only [if_neg hdq, if_neg hbs]
      rw [ih]
      rfl

theorem sizeJ_pos (j : Json) : 1 ≤ sizeJ j := by
  cases j <;> simp [sizeJ]

theorem sizeL_pos (l : JsonList) : 1 ≤ sizeL l := by
  cases l <;> simp [sizeL]

theorem sizeM_pos (m : JsonObj) : 1 ≤ sizeM m := by
  cases m <;> simp [sizeM]

theorem natChars_head_digit (n : Nat) (c : Char) (t : List Char)
    (h : natChars n = c :: t) : isDigitCh c = true :=
  mem_natChars_digit (h ▸ List.mem_cons_self c t)

theorem dumpJ_ne_nil (j : Json) : dumpJ j ≠ [] := by
  cases j with
  | null => simp [dumpJ, nullChars]
  | bool b => cases b <;> simp [dumpJ, trueChars, falseChars]
  | int n =>
    simp only [dumpJ, intChars]
    split
    · simp
    · exact natChars_ne_nil n.natAbs
  | str s => simp [dumpJ]
  | arr l => simp [dumpJ]
  | obj m => simp [dumpJ]

theorem dumpJ_head_ne_rbracket (j : Json) (c : Char) (t : List Char)
    (h : dumpJ j = c :: t) : ¬ c = ']' := by
  intro hc
  subst hc
  cases j with
  | null => simp [dumpJ, nullChars] at h
  | bool b => cases b <;> simp [dumpJ, trueChars, falseChars] at h
  | int n =>
    simp only [dumpJ, intChars] at h
    split at h
    · simp at h
    · exact absurd (natChars_head_digit n.natAbs _ _ h) (by decide)
  | str s => simp [dumpJ] at h
  | arr l => simp [dumpJ] at h
  | obj m =>
    simp only [dumpJ] at h
    exact absurd (List.head_eq_of_cons_eq h.symm ▸ rfl : lbrace = ']') (by decide)

theorem parseV_quote (f : Nat) (cs : List Char) :
    parseV (f + 1) ('"' :: cs) =
      (parseStrChars cs).map (fun p => (.str ⟨p.1⟩, p.2)) := rfl

theorem parseV_lbracket (f : Nat) (cs : List Char) :
    parseV (f + 1) ('[' :: cs) =
      (parseItems f cs).map (fun p => (.arr p.1, p.2)) := rfl

theorem parseV_lbrace (f : Nat) (cs : List Char) :
    parseV (f + 1) (lbrace :: cs) =
      (parseMembers f cs).map (fun p => (.obj p.1, p.2)) := rfl

theorem parseV_minus (f : Nat) (cs : List Char) :
    parseV (f + 1) ('-' :: cs) =
      (parseNatCh cs).map (fun p => (.int (-(p.1 : Int)), p.2)) := rfl

theorem digit_head_cases (c : Char) (h : isDigitCh c = true) :
    ¬c = 'n' ∧ ¬c = 't' ∧ ¬c = 'f' ∧ ¬c = '"' ∧ ¬c = '[' ∧ ¬c = lbrace ∧
      ¬c = '-' := by
  refine ⟨?_, ?_, ?_, ?_, ?_, ?_, ?_⟩ <;> (intro hc; subst hc; revert h; decide)

theorem parseV_digit (f : Nat) (c : Char) (cs : List Char)
    (h : isDigitCh c = true) :
    parseV (f + 1) (c :: cs) =
      (parseNatCh (c :: cs)).map (fun p => (.int (p.1 : Int), p.2)) := by
  obtain ⟨h1, h2, h3, h4, h5, h6, h7⟩ := digit_head_cases c h
  rw [parseV.eq_def]
  simp only [if_neg h1, if_neg h2, if_neg h3, if_neg h4, if_neg h5, if_neg h6,
    if_neg h7, if_pos h]

theorem parseItems_cons (f : Nat) (c : Char) (cs : List Char) (h : ¬c = ']') :
    parseItems (f + 1) (c :: cs) =
      match parseV f (c :: cs) with
      | none => none
      | some (j, r) =>
        match r with
        | [] => none
        | d :: r2 =>
          if d = ']' then some (.cons j .nil, r2)
          else if d = ',' then
            match r2 with
            | ' ' :: r3 => (parseItems f r3).map (fun p => (.cons j p.1, p.2))
            | _ => none
          else none := by
  rw [parseItems.eq_def]
  simp only [if_neg h]

theorem parseMembers_quote (f : Nat) (cs : List Char) :
    parseMembers (f + 1) ('"' :: cs) =
      match parseStrChars cs with
      | none => none
      | some (k, r) =>
        match r with
        | ':' :: ' ' :: r2 =>
          match parseV f r2 with
          | none => none
          | some (v, r3) =>
            match r3 with
            | [] => none
            | d :: r4 =>
              if d = rbrace then some (.cons ⟨k⟩ v .nil, r4)
              else if d = ',' then
                match r4 with
                | ' ' :: r5 =>
                  (parseMembers f r5).map (fun p => (.cons ⟨k⟩ v p.1, p.2))
                | _ => none
              else none
        | _ => none := rfl

/-- Completeness of the fuel-bounded reader against the writer: with
enough fuel, reading the serialized text of any value (followed by any
remainder that cannot extend a number) yields the value back. -/
theorem parse_complete : ∀ fuel : Nat,
    (∀ j rest, sizeJ j ≤ fuel → restOkB rest = true →
      parseV fuel (dumpJ j ++ rest) = some (j, rest)) ∧
    (∀ l rest, sizeL l ≤ fuel →
      parseItems fuel (dumpItems l ++ ']' :: rest) = some (l, rest)) ∧
    (∀ m rest, sizeM m ≤ fuel →
      parseMembers fuel (dumpMembers m ++ rbrace :: rest) = some (m, rest)) := by
  intro fuel
  induction fuel with
  | zero =>
    constructor
    · intro j rest h _
      exact absurd h (by have := sizeJ_pos j; omega)
    constructor
    · intro l rest h
      exact absurd h (by have := sizeL_pos l; omega)
    · intro m rest h
      exact absurd h (by have := sizeM_pos m; omega)
  | succ f ih =>
    obtain ⟨ihV, ihI, ihM⟩ := ih
    have hV : ∀ j rest, sizeJ j ≤ f + 1 → restOkB rest = true →
        parseV (f + 1) (dumpJ j ++ rest) = some (j, rest) := by
      intro j rest hsz hrest
      cases j with
      | null => rfl
      | bool b => cases b <;> rfl
      | int n =>
        rcases lt_or_ge n 0 with hn | hn
        · have hd : dumpJ (.int n) = '-' :: natChars n.natAbs := by
            show intChars n = _
            rw [intChars, if_pos hn]
          rw [hd, List.cons_append, parseV_minus, parseNatCh_natChars _ _ hrest]
          show some (Json.int (-(n.natAbs : Int)), rest) = some (.int n, rest)
          have he : -(n.natAbs : Int) = n := by omega
          rw [he]
        · have hd : dumpJ (.int n) = natChars n.natAbs := by
            show intChars n = _
            rw [intChars, if_neg (by omega)]
          obtain ⟨c, t, hct⟩ : ∃ c t, natChars n.natAbs = c :: t := by
            rcases hx : natChars n.natAbs with _ | ⟨c, t⟩
            · exact absurd hx (natChars_ne_nil _)
            · exact ⟨c, t, rfl⟩
          have hdig : isDigitCh c = true := natChars_head_digit _ _ _ hct
          rw [hd, hct, List.cons_append, parseV_digit f c _ hdig,
            ← List.cons_append, ← hct, parseNatCh_natChars _ _ hrest]
          show some (Json.int (n.natAbs : Int), rest) = some (.int n, rest)
          have he : (n.natAbs : Int) = n := by omega
          rw [he]
      | str s =>
        have hd : dumpJ (.str s) ++ rest =
            '"' :: (escapeChars s.data ++ '"' :: rest) := by
          show ('"' :: (escapeChars s.data ++ ['"'])) ++ rest = _
          simp [List.append_assoc]
        rw [hd, parseV_quote, parseStrChars_escape]
        rfl
      | arr l =>
        have hsz' : sizeL l ≤ f := by
          have h1 : sizeJ (.arr l) = sizeL l + 1 := rfl
          omega
        have hd : dumpJ (.arr l) ++ rest = '[' :: (dumpItems l ++ ']' :: rest) := by
          show ('[' :: (dumpItems l ++ [']'])) ++ rest = _
          simp [List.append_assoc]
        rw [hd, parseV_lbracket, ihI l rest hsz']
        rfl
      | obj m =>
        have hsz' : sizeM m ≤ f := by
          have h1 : sizeJ (.obj m) = sizeM m + 1 := rfl
          omega
        have hd : dumpJ (.obj m) ++ rest =
            lbrace :: (dumpMembers m ++ rbrace :: rest) := by
          show (lbrace :: (dumpMembers m ++ [rbrace])) ++ rest = _
          simp [List.append_assoc]
        rw [hd, parseV_lbrace, ihM m rest hsz']
        rfl
    refine ⟨hV, ?_, ?_⟩
    · intro l rest hsz
      cases l with
      | nil =>
        show parseItems (f + 1) (']' :: rest) = some (.nil, rest)
        rfl
      | cons j tl =>
        obtain ⟨c, t, hct⟩ : ∃ c t, dumpJ j = c :: t := by
          rcases hx : dumpJ j with _ | ⟨c, t⟩
          · exact absurd hx (dumpJ_ne_nil j)
          · exact ⟨c, t, rfl⟩
        have hcne : ¬c = ']' := dumpJ_head_ne_rbracket j c t hct
        cases tl with
        | nil =>
          have hszj : sizeJ j ≤ f := by
            have h1 : sizeL (.cons j .nil) = sizeJ j + sizeL .nil + 1 := rfl
            have h2 : sizeL JsonList.nil = 1 := rfl
            omega
          have hPV := hV j (']' :: rest) (by omega) rfl
          show parseItems (f + 1) (dumpJ j ++ ']' :: rest) =
            some (.cons j .nil, rest)
          rw [hct, List.cons_append, parseItems_cons f c _ hcne,
            ← List.cons_append, ← hct]
          have hPV' := ihV j (']' :: rest) hszj rfl
          rw [hPV']
          rfl
        | cons x xs =>
          have h1 : sizeL (.cons j (.cons x xs)) =
              sizeJ j + sizeL (.cons x xs) + 1 := rfl
          have hszj : sizeJ j ≤ f := by
            have := sizeL_pos (.cons x xs); omega
          have hszt : sizeL (.cons x xs) ≤ f := by
            have := sizeJ_pos j; omega
          have hPV := ihV j (',' :: ' ' :: (dumpItems (.cons x xs) ++ ']' :: rest))
            hszj rfl
          have hPI := ihI (.cons x xs) rest hszt
          show parseItems (f + 1)
              ((dumpJ j ++ ',' :: ' ' :: dumpItems (.cons x xs)) ++ ']' :: rest) =
            some (.cons j (.cons x xs), rest)
          rw [List.append_assoc, List.cons_append, List.cons_append]
          rw [hct, List.cons_append, parseItems_cons f c _ hcne,
            ← List.cons_append, ← hct]
          rw [hPV]
          show (parseItems f (dumpItems (.cons x xs) ++ ']' :: rest)).map
              (fun p => (JsonList.cons j p.1, p.2)) =
            some (.cons j (.cons x xs), rest)
          rw [hPI]
          rfl
    · intro m rest hsz
      cases m with
      | nil =>
        show parseMembers (f + 1) (rbrace :: rest) = some (.nil, rest)
        rfl
      | cons k v tl =>
        cases tl with
        | nil =>
          have hszv : sizeJ v ≤ f := by
            have h1 : sizeM (.cons k v .nil) = sizeJ v + sizeM .nil + 1 := rfl
            have h2 : sizeM JsonObj.nil = 1 := rfl
            omega
          have hPV := ihV v (rbrace :: rest) hszv rfl
          show parseMembers (f + 1)
              (('"' :: (escapeChars k.data ++ '"' :: ':' :: ' ' :: dumpJ v)) ++
                rbrace :: rest) =
            some (.cons k v .nil, rest)
          rw [List.cons_append, parseMembers_quote, List.append_assoc,
            List.cons_append, List.cons_append, List.cons_append,
            parseStrChars_escape]
          show (match parseV f (dumpJ v ++ rbrace :: rest) with
            | none => none
            | some (v, r3) =>
              match r3 with
              | [] => none
              | d :: r4 =>
                if d = rbrace then some (JsonObj.cons ⟨k.data⟩ v .nil, r4)
                else if d = ',' then
                  match r4 with
                  | ' ' :: r5 =>
                    (parseMembers f r5).map
                      (fun p => (JsonObj.cons ⟨k.data⟩ v p.1, p.2))
                  | _ => none
                else none) = some (.cons k v .nil, rest)
          rw [hPV]
          rfl
        | cons k2 v2 ts =>
          have h1 : sizeM (.cons k v (.cons k2 v2 ts)) =
              sizeJ v + sizeM (.cons k2 v2 ts) + 1 := rfl
          have hszv : sizeJ v ≤ f := by
            have := sizeM_pos (.cons k2 v2 ts); omega
          have hszt : sizeM (.cons k2 v2 ts) ≤ f := by
            have := sizeJ_pos v; omega
          have hPV := ihV v
            (',' :: ' ' :: (dumpMembers (.cons k2 v2 ts) ++ rbrace :: rest))
            hszv rfl
          have hPM := ihM (.cons k2 v2 ts) rest hszt
          show parseMembers (f + 1)
              ((('"' :: (escapeChars k.data ++ '"' :: ':' :: ' ' :: dumpJ v)) ++
                ',' :: ' ' :: dumpMembers (.cons k2 v2 ts)) ++ rbrace :: rest) =
            some (.cons k v (.cons k2 v2 ts), rest)
          have hbig : (('"' :: (escapeChars k.data ++ '"' :: ':' :: ' ' :: dumpJ v)) ++
              ',' :: ' ' :: dumpMembers (.cons k2 v2 ts)) ++ rbrace :: rest =
              '"' :: (escapeChars k.data ++ '"' :: ':' :: ' ' ::
                (dumpJ v ++
                  ',' :: ' ' :: (dumpMembers (.cons k2 v2 ts) ++ rbrace :: rest))) := by
            simp
          rw [hbig, parseMembers_quote, parseStrChars_escape]
          show (match parseV f
              (dumpJ v ++
                ',' :: ' ' :: (dumpMembers (.cons k2 v2 ts) ++ rbrace :: rest)) with
            | none => none
            | some (v, r3) =>
              match r3 with
              | [] => none
              | d :: r4 =>
                if d = rbrace then some (JsonObj.cons ⟨k.data⟩ v .nil, r4)
                else if d = ',' then
                  match r4 with
                  | ' ' :: r5 =>
                    (parseMembers f r5).map
                      (fun p => (JsonObj.cons ⟨k.data⟩ v p.1, p.2))
                  | _ => none
                else none) = some (.cons k v (.cons k2 v2 ts), rest)
          rw [hPV]
          show (parseMembers f (dumpMembers (.cons k2 v2 ts) ++ rbrace :: rest)).map
              (fun p => (JsonObj.cons ⟨k.data⟩ v p.1, p.2)) =
            some (.cons k v (.cons k2 v2 ts), rest)
          rw [hPM]
          rfl

mutual

theorem sizeJ_le_dump : ∀ j : Json, sizeJ j ≤ 2 * (dumpJ j).length
  | .null => by
      rw [show sizeJ .null = 1 from rfl,
        show (dumpJ .null).length = 4 from rfl]
      omega
  | .bool b => by
      cases b
      · rw [show sizeJ (.bool false) = 1 from rfl,
          show (dumpJ (.bool false)).length = 5 from rfl]
        omega
      · rw [show sizeJ (.bool true) = 1 from rfl,
          show (dumpJ (.bool true)).length = 4 from rfl]
        omega
  | .int n => by
      have h : intChars n ≠ [] := by
        unfold intChars
        split
        · simp
        · exact natChars_ne_nil _
      have h2 : 1 ≤ (intChars n).length := List.length_pos.mpr h
      rw [show sizeJ (.int n) = 1 from rfl,
        show dumpJ (.int n) = intChars n from rfl]
      omega
  | .str s => by
      rw [show sizeJ (.str s) = 1 from rfl]
      have e2 : (dumpJ (.str s)).length = (escapeChars s.data ++ ['"']).length + 1 := by
        rw [show dumpJ (.str s) = '"' :: (escapeChars s.data ++ ['"']) from rfl]
        simp
      omega
  | .arr l => by
      have h := sizeL_le_dump l
      have e : sizeJ (.arr l) = sizeL l + 1 := rfl
      have e2 : (dumpJ (.arr l)).length = (dumpItems l).length + 2 := by
        rw [show dumpJ (.arr l) = '[' :: (dumpItems l ++ [']']) from rfl]
        simp
      rw [e, e2]
      omega
  | .obj m => by
      have h := sizeM_le_dump m
      have e : sizeJ (.obj m) = sizeM m + 1 := rfl
      have e2 : (dumpJ (.obj m)).length = (dumpMembers m).length + 2 := by
        rw [show dumpJ (.obj m) = lbrace :: (dumpMembers m ++ [rbrace]) from rfl]
        simp
      rw [e, e2]
      omega
termination_by structural j => j

theorem sizeL_le_dump : ∀ l : JsonList, sizeL l ≤ 2 * (dumpItems l).length + 2
  | .nil => by
      rw [show sizeL .nil = 1 from rfl]
      omega
  | .cons j .nil => by
      have h := sizeJ_le_dump j
      have e : sizeL (.cons j .nil) = sizeJ j + 2 := rfl
      have e2 : dumpItems (.cons j .nil) = dumpJ j := rfl
      rw [e, e2]
      omega
  | .cons j (.cons x xs) => by
      have h := sizeJ_le_dump j
      have h2 := sizeL_le_dump (.cons x xs)
      have e : sizeL (.cons j (.cons x xs)) =
          sizeJ j + sizeL (.cons x xs) + 1 := rfl
      have e2 : (dumpItems (.cons j (.cons x xs))).length =
          (dumpJ j).length + 2 + (dumpItems (.cons x xs)).length := by
        rw [show dumpItems (.cons j (.cons x xs)) =
          dumpJ j ++ ',' :: ' ' :: dumpItems (.cons x xs) from rfl]
        simp
        omega
      rw [e, e2]
      omega
termination_by structural l => l

theorem sizeM_le_dump : ∀ m : JsonObj, sizeM m ≤ 2 * (dumpMembers m).length + 2
  | .nil => by
      rw [show sizeM .nil = 1 from rfl]
      omega
  | .cons k v .nil => by
      have h := sizeJ_le_dump v
      have e : sizeM (.cons k v .nil) = sizeJ v + 2 := rfl
      have e2 : (dumpMembers (.cons k v .nil)).length =
          (escapeChars k.data).length + 4 + (dumpJ v).length := by
        rw [show dumpMembers (.cons k v .nil) =
          '"' :: (escapeChars k.data ++ '"' :: ':' :: ' ' :: dumpJ v) from rfl]
        simp
        omega
      rw [e, e2]
      omega
  | .cons k v (.cons k2 v2 ts) => by
      have h := sizeJ_le_dump v
      have h2 := sizeM_le_dump (.cons k2 v2 ts)
      have e : sizeM (.cons k v (.cons k2 v2 ts)) =
          sizeJ v + sizeM (.cons k2 v2 ts) + 1 := rfl
      have e2 : (dumpMembers (.cons k v (.cons k2 v2 ts))).length =
          (escapeChars k.data).length + 6 + (dumpJ v).length +
            (dumpMembers (.cons k2 v2 ts)).length := by
        rw [show dumpMembers (.cons k v (.cons k2 v2 ts)) =
          ('"' :: (escapeChars k.data ++ '"' :: ':' :: ' ' :: dumpJ v)) ++
            ',' :: ' ' :: dumpMembers (.cons k2 v2 ts) from rfl]
        simp
        omega
      rw [e, e2]
      omega
termination_by structural m => m

end

/-- Reading a serialized value back yields the value: the decoding
really is symmetric to the encoding. -/
theorem parseTop_dumpsStr (j : Json) : parseTop (dumpsStr j) = some j := by
  have hfuel : sizeJ j ≤ 2 * (dumpJ j).length + 2 := by
    have := sizeJ_le_dump j
    omega
  have h := (parse_complete (2 * (dumpJ j).length + 2)).1 j [] hfuel rfl
  rw [List.append_nil] at h
  unfold parseTop
  rw [show (dumpsStr j).length = (dumpJ j).length from rfl,
    show (dumpsStr j).data = dumpJ j from rfl, h]

theorem decode_encode (k : Kind) (v : Value) (h : kindOk k v = true) :
    decodeValue k (encodeValue k v) = v := by
  cases k <;> cases v <;>
    simp_all [kindOk, encodeValue, decodeValue, parseTop_dumpsStr]

/-! ## Claim theorems -/

theorem createChildren_spec (pid : Int) : ∀ (db : DB) (cs : List ChildInst),
    (createChildren pid db cs).1.childRows =
        db.childRows ++ cs.map (fun c => (pid, c.name))
    ∧ (createChildren pid db cs).1.trace =
        db.trace ++ cs.map (fun c => Stmt.insertChildRow pid c.name)
    ∧ (createChildren pid db cs).1.parentRows = db.parentRows
    ∧ (createChildren pid db cs).1.nextId = db.nextId
    ∧ (createChildren pid db cs).2 =
        cs.map (fun c => { c with simple_id := some pid, action := .update }) := by
  intro db cs
  induction cs generalizing db with
  | nil => simp [createChildren]
  | cons c rest ih =>
    obtain ⟨h1, h2, h3, h4, h5⟩ := ih (createChild pid db c).1
    simp only [createChild] at h1 h2 h3 h4 h5
    refine ⟨?_, ?_, ?_, ?_, ?_⟩ <;>
      simp [createChildren, createChild, h1, h2, h3, h4, h5]

/-- C5: a cascading create persists the parent row first under the
generated serial key, back-fills every attached child's foreign key
with that key, persists the children after the parent in order, and
moves the parent and every child to the update-pending action state;
in particular creating a parent "sure" with one attached child "fine"
on a fresh store yields the parent row `(1, "sure")` and the child row
`(1, "fine")`. -/
theorem C5_cascading_create (db : DB) (p : ParentInst) :
    ((model_create db p).1.parentRows = db.parentRows ++ [(db.nextId, p.name)])
    ∧ ((model_create db p).1.childRows =
        db.childRows ++ p.children.map (fun c => (db.nextId, c.name)))
    ∧ ((model_create db p).1.trace =
        db.trace ++ Stmt.insertParentRow db.nextId p.name ::
          p.children.map (fun c => Stmt.insertChildRow db.nextId c.name))
    ∧ ((model_create db p).2.id = some db.nextId)
    ∧ ((model_create db p).2.action = .update)
    ∧ ((model_create db p).2.children =
        p.children.map (fun c =>
          { c with simple_id := some db.nextId, action := .update }))
    ∧ ((model_create {} { name := "sure", children := [{ name := "fine" }] }) =
        ({ parentRows := [(1, "sure")], childRows := [(1, "fine")], nextId := 2,
           trace := [.insertParentRow 1 "sure", .insertChildRow 1 "fine"] },
         { name := "sure", id := some 1, action := .update,
           children := [{ name := "fine", simple_id := some 1,
                          action := .update }] })) := by
  obtain ⟨h1, h2, h3, h4, h5⟩ := createChildren_spec db.nextId
    { db with
      parentRows := db.parentRows ++ [(db.nextId, p.name)]
      nextId := db.nextId + 1
      trace := db.trace ++ [.insertParentRow db.nextId p.name] }
    p.children
  refine ⟨?_, ?_, ?_, rfl, rfl, ?_, rfl⟩ <;>
    simp [model_create, h1, h2, h3, h4, h5]

/-- C6: a model with no primary-key declaration always fails update
with "⟨model⟩: nothing to update from" and delete with
"⟨model⟩: nothing to delete from", whatever its filter state and
pending values, and the stored rows are returned unchanged. -/
theorem C6_no_pk_mutations (name : String) (filters : List (String × Int))
    (sets : List (String × Value)) (db : List Row) :
    model_update { name := name, filters := filters, sets := sets } db =
        (.error (name ++ ": nothing to update from"), db)
    ∧ model_delete { name := name, filters := filters, sets := sets } db =
        (.error (name ++ ": nothing to delete from"), db) :=
  ⟨rfl, rfl⟩

/-- C10: a bulk create inserts one parent row per added instance, with
serial keys counting up from the store's sequence, and then empties
the collection's pending model list instead of retaining the created
instances. -/
theorem C10_bulk_create (db : DB) (b : Bulk) :
    ((model_create_bulk db b).2.pending = [])
    ∧ ((model_create_bulk db b).1.parentRows =
        db.parentRows ++ bulkRows db.nextId b.pending) := by
  refine ⟨rfl, ?_⟩
  show (createEach db b.pending).1.parentRows =
    db.parentRows ++ bulkRows db.nextId b.pending
  induction b.pending generalizing db with
  | nil => simp [createEach, bulkRows]
  | cons p rest ih =>
    obtain ⟨c1, c2, c3, c4, c5⟩ := createChildren_spec db.nextId
      { db with
        parentRows := db.parentRows ++ [(db.nextId, p.name)]
        nextId := db.nextId + 1
        trace := db.trace ++ [.insertParentRow db.nextId p.name] }
      p.children
    have ih' := ih (model_create db p).1
    simp only [createEach, ih', bulkRows]
    simp [model_create, c3, c4]

/-- C1 counterexample: in the test's pagination scenario exactly one
row matches `name="people"`, and retrieving it with limit 1 — a limit
equal to the matching row count — sets the overflow flag, refuting the
claim that a limit greater than or equal to the matching count leaves
overflow unset. -/
theorem C1_counterexample :
    ([peopleRow] : List Row).length = 1
    ∧ (model_retrieve_many { name := "unit", label := "name", limit := some 1 }
        [peopleRow]).1.overflow = true :=
  ⟨rfl, rfl⟩

/-- C1 (amended): for a many-row retrieve with an active limit, the
overflow flag is set exactly when the limit is at most the number of
matching rows left after the offset — that is, when the fetched row
count reaches the limit — and a retrieve with no active limit never
sets it. -/
theorem C1_amended (name lab : String) (matched : List Row) (l o : Nat) :
    ((model_retrieve_many
        { name := name, label := lab, limit := some l, offset := o }
        matched).1.overflow = true ↔ l ≤ matched.length - o)
    ∧ (model_retrieve_many { name := name, label := lab } matched).1.overflow
        = false := by
  constructor
  · simp only [model_retrieve_many, sqlSelect]
    constructor
    · intro h
      have := List.length_take l (matched.drop o)
      simp only [List.length_drop] at this
      have hb : ((matched.drop o).take l).length = l := by
        simpa using h
      omega
    · intro h
      have heq : ((matched.drop o).take l).length = l := by
        simp only [List.length_take, List.length_drop]
        omega
      simp [heq]
  · rfl

/-- C7: a single-row retrieve matching zero rows raises the
"⟨model⟩: none retrieved" error, matching more than one raises the
distinct "⟨model⟩: more than one retrieved" error, and the
retrieve-or-None mode returns the empty result instead of raising on
zero matches. -/
theorem C7_single_retrieve (name lab : String) (matched : List Row) :
    (matched = [] →
      model_retrieve_one { name := name, label := lab } true matched =
        .error (name ++ ": none retrieved"))
    ∧ (matched.length > 1 → ∀ verify,
        model_retrieve_one { name := name, label := lab } verify matched =
          .error (name ++ ": more than one retrieved"))
    ∧ (matched = [] →
        model_retrieve_one { name := name, label := lab } false matched =
          .ok Option.none) := by
  refine ⟨?_, ?_, ?_⟩
  · rintro rfl
    rfl
  · intro h verify
    simp [model_retrieve_one, h]
  · rintro rfl
    rfl

/-- Witness for C7 at the test scenario: zero and two matching unit
rows, with and without verification. -/
theorem C7_single_retrieve_witness :
    model_retrieve_one { name := "unit", label := "name" } true [] =
        .error "unit: none retrieved"
    ∧ model_retrieve_one { name := "unit", label := "name" } true
        [[("name", Value.str "people")], [("name", Value.str "stuff")]] =
        .error "unit: more than one retrieved"
    ∧ model_retrieve_one { name := "unit", label := "name" } false [] =
        .ok Option.none :=
  ⟨((C7_single_retrieve "unit" "name" []).1 rfl).trans rfl,
   (((C7_single_retrieve "unit" "name"
      [[("name", Value.str "people")], [("name", Value.str "stuff")]]).2.1
        (by decide) true)).trans rfl,
   ((C7_single_retrieve "unit" "name" []).2.2 rfl).trans rfl⟩

/-- C2 counterexample: filtering integer field `id` on `[1,2,3]` with
the exclusion operator binds `[1,2,3]` but emits the fragment
`"id" NOT IN (%s,%s,%s)` — the psycopg2 placeholder is `%s`, so the
claimed literal `"id" NOT IN (%,%,%)` is not produced. -/
theorem C2_counterexample :
    (field_retrieve
        { kind := .int, store := "id",
          filter := some (.notIn [.int 1, .int 2, .int 3]) } {} []).1.wheres =
      "\"id\" NOT IN (%s,%s,%s)"
    ∧ ¬ (field_retrieve
        { kind := .int, store := "id",
          filter := some (.notIn [.int 1, .int 2, .int 3]) } {} []).1.wheres =
      "\"id\" NOT IN (%,%,%)" :=
  ⟨rfl, by decide⟩

/-- C2 (amended): the per-field retrieve hook appends exactly the WHERE
fragment and bound-value list of the §4.3 operator table with `%s` as
the placeholder glyph: membership and exclusion emit one `%s` per
member and bind the members, text-contains emits the `::varchar(255)
ILIKE %s` cast clause binding the percent-wrapped value, the
comparisons emit the operator with one `%s` binding the value, and the
default operator emits `"col"=%s` binding the value, each AND-joined
onto whatever WHERE text the query already holds. -/
theorem C2_amended (values : List Value) (q : Query) :
    (field_retrieve
        { kind := .int, store := "id",
          filter := some (.isIn [.int 1, .int 2, .int 3]) } q values =
      (addWheres q "\"id\" IN (%s,%s,%s)", values ++ [.int 1, .int 2, .int 3]))
    ∧ (field_retrieve
        { kind := .int, store := "id",
          filter := some (.notIn [.int 1, .int 2, .int 3]) } q values =
      (addWheres q "\"id\" NOT IN (%s,%s,%s)",
       values ++ [.int 1, .int 2, .int 3]))
    ∧ (field_retrieve
        { kind := .int, store := "id", filter := some (.like (.int 1)) } q
          values =
      (addWheres q "\"id\"::varchar(255) ILIKE %s", values ++ [.str "%1%"]))
    ∧ (field_retrieve
        { kind := .int, store := "id", filter := some (.gt (.int 1)) } q
          values =
      (addWheres q "\"id\">%s", values ++ [.int 1]))
    ∧ (field_retrieve
        { kind := .int, store := "id", filter := some (.gte (.int 1)) } q
          values =
      (addWheres q "\"id\">=%s", values ++ [.int 1]))
    ∧ (field_retrieve
        { kind := .int, store := "id", filter := some (.lt (.int 1)) } q
          values =
      (addWheres q "\"id\"<%s", values ++ [.int 1]))
    ∧ (field_retrieve
        { kind := .int, store := "id", filter := some (.lte (.int 1)) } q
          values =
      (addWheres q "\"id\"<=%s", values ++ [.int 1]))
    ∧ (field_retrieve
        { kind := .int, store := "id", filter := some (.eq (.int 1)) } q
          values =
      (addWheres q "\"id\"=%s", values ++ [.int 1])) :=
  ⟨rfl, rfl, rfl, rfl, rfl, rfl, rfl, rfl⟩

/-- C3: with no explicit raw definition, a static default renders a
NOT NULL and a DEFAULT clause carrying the dialect-correct literal
(True/False for boolean, the decimal literal for integer and float,
the single-quoted escaped string for text, and the single-quoted
serialized empty-collection literal for sequence/mapping fields), while
a deferred (callable) default renders NOT NULL with no DEFAULT clause. -/
theorem C3_default_clauses (f : Field) (hdef : f.definition = Option.none) :
    (∀ v, f.default = .static v →
      fieldDefinition f =
        quoteIdent f.store ++ " " ++ baseType f ++ " NOT NULL" ++
          (" DEFAULT " ++ renderDefault v) ++
          (if f.primary_key then " PRIMARY KEY" else ""))
    ∧ (f.default = .callable →
        fieldDefinition f =
          quoteIdent f.store ++ " " ++ baseType f ++ " NOT NULL" ++
            (if f.primary_key then " PRIMARY KEY" else ""))
    ∧ (∀ b, renderDefault (.bool b) = pyBoolStr b)
    ∧ renderDefault (.json (.arr .nil)) = "\x27[]\x27"
    ∧ renderDefault (.json (.obj .nil)) = "\x27\x7b\x7d\x27"
    ∧ (∀ n : Int, renderDefault (.int n) = intStr n)
    ∧ (∀ m e, renderDefault (.float m e) = (⟨floatChars m e⟩ : String))
    ∧ (∀ s, renderDefault (.str s) = sqlQuoted ⟨escSqlChars s.data⟩) := by
  refine ⟨?_, ?_, fun b => rfl, rfl, rfl, fun n => rfl, fun m e => rfl,
    fun s => rfl⟩
  · intro v hv
    simp [fieldDefinition, hdef, hv, hasDefault]
  · intro hv
    simp [fieldDefinition, hdef, hv, hasDefault, String.append_empty]

/-- Witness for C3 at the fields of the cited tests, evaluating the
exact column-definition strings the tests assert. -/
theorem C3_default_clauses_witness :
    fieldDefinition
        { kind := .bool, store := "_flag", default := .static (.bool false) } =
      "\"_flag\" BOOLEAN NOT NULL DEFAULT False"
    ∧ fieldDefinition { kind := .bool, store := "_flag", default := .callable } =
      "\"_flag\" BOOLEAN NOT NULL"
    ∧ fieldDefinition
        { kind := .str
          store := "name"
          length := 32
          noneOk := false
          default := .static (.str "ya") } =
      "\"name\" VARCHAR(32) NOT NULL DEFAULT \x27ya\x27"
    ∧ fieldDefinition
        { kind := .float, store := "spend", default := .static (.float 1 1) } =
      "\"spend\" FLOAT NOT NULL DEFAULT 0.1"
    ∧ fieldDefinition
        { kind := .list, store := "stuff", default := .static (.json (.arr .nil)) } =
      "\"stuff\" JSON NOT NULL DEFAULT \x27[]\x27"
    ∧ fieldDefinition
        { kind := .dict, store := "things", default := .static (.json (.obj .nil)) } =
      "\"things\" JSON NOT NULL DEFAULT \x27\x7b\x7d\x27" :=
  ⟨((C3_default_clauses _ rfl).1 (.bool false) rfl).trans rfl,
   ((C3_default_clauses _ rfl).2.1 rfl).trans rfl,
   ((C3_default_clauses _ rfl).1 (.str "ya") rfl).trans rfl,
   ((C3_default_clauses _ rfl).1 (.float 1 1) rfl).trans rfl,
   ((C3_default_clauses _ rfl).1 (.json (.arr .nil)) rfl).trans rfl,
   ((C3_default_clauses _ rfl).1 (.json (.obj .nil)) rfl).trans rfl⟩

/-- C8: `model_sort` consumes the pending sort request — the stored
sort is cleared after being rendered, and when no request is pending
the declared display label is used ascending — whereas `model_limit`
leaves the model (its stored limit and offset request included)
unchanged; a requested limit emits one `%s` placeholder bound to the
limit, followed by `OFFSET %s` bound to the offset only when an offset
was requested, and no request emits no LIMIT clause. -/
theorem C8_sort_consumes_limit_preserves (m : Model) (q : Query)
    (values : List Value) :
    ((model_sort m q).1 = { m with sort := Option.none })
    ∧ (∀ ks, m.sort = some ks →
        (model_sort m q).2 = addOrderBys q (joinComma (ks.map sortClause)))
    ∧ (m.sort = Option.none →
        (model_sort m q).2 = addOrderBys q (quoteIdent m.label))
    ∧ ((model_limit m q values).1 = m)
    ∧ (m.limit = Option.none → model_limit m q values = (m, q, values))
    ∧ (∀ l, m.limit = some l → m.offset = 0 →
        (model_limit m q values).2 = (addLimits q "%s", values ++ [.int l]))
    ∧ (∀ l, m.limit = some l → m.offset ≠ 0 →
        (model_limit m q values).2 =
          (addLimits (addLimits q "%s") "OFFSET %s",
           values ++ [.int l, .int m.offset])) := by
  refine ⟨rfl, ?_, ?_, ?_, ?_, ?_, ?_⟩
  · intro ks hks
    simp [model_sort, hks]
  · intro hks
    simp [model_sort, hks, sortClause, joinComma, String.append_empty]
  · cases hl : m.limit with
    | none => simp [model_limit, hl]
    | some l =>
      simp only [model_limit, hl]
      split <;> rfl
  · intro hl
    simp [model_limit, hl]
  · intro l hl ho
    simp [model_limit, hl, ho]
  · intro l hl ho
    simp only [model_limit, hl]
    rw [if_pos (by simpa using ho)]

/-- Witness for C8 at the test scenario: explicit descending sort,
limit 2 with offset 1, and the unpaged model. -/
theorem C8_sort_consumes_limit_preserves_witness :
    (model_sort { label := "name", sort := some [(true, "id")] } {}).1.sort =
        Option.none
    ∧ (model_sort { label := "name", sort := some [(true, "id")] } {}).2.order_bys =
        "\"id\" DESC"
    ∧ (model_sort { label := "name" } {}).2.order_bys = "\"name\""
    ∧ (model_limit { label := "name", limit := some 2, offset := 1 } {} []).1 =
        { label := "name", limit := some 2, offset := 1 }
    ∧ (model_limit { label := "name", limit := some 2, offset := 1 } {} []).2.1.limits =
        "%s OFFSET %s"
    ∧ (model_limit { label := "name", limit := some 2, offset := 1 } {} []).2.2 =
        [.int 2, .int 1]
    ∧ (model_limit { label := "name" } {} []).2.1.limits = "" :=
  ⟨(congrArg Model.sort
      (C8_sort_consumes_limit_preserves
        { label := "name", sort := some [(true, "id")] } {} []).1).trans rfl,
   (congrArg Query.order_bys
      ((C8_sort_consumes_limit_preserves
        { label := "name", sort := some [(true, "id")] } {} []).2.1
        [(true, "id")] rfl)).trans rfl,
   (congrArg Query.order_bys
      ((C8_sort_consumes_limit_preserves
        { label := "name" } {} []).2.2.1 rfl)).trans rfl,
   (C8_sort_consumes_limit_preserves
      { label := "name", limit := some 2, offset := 1 } {} []).2.2.2.1,
   (congrArg (fun p => p.1.limits)
      ((C8_sort_consumes_limit_preserves
        { label := "name", limit := some 2, offset := 1 } {} []).2.2.2.2.2.2
        2 rfl (by decide))).trans rfl,
   (congrArg (fun p => p.2)
      ((C8_sort_consumes_limit_preserves
        { label := "name", limit := some 2, offset := 1 } {} []).2.2.2.2.2.2
        2 rfl (by decide))).trans rfl,
   (congrArg (fun p => p.2.1.limits)
      ((C8_sort_consumes_limit_preserves
        { label := "name" } {} []).2.2.2.2.1 rfl)).trans rfl⟩

/-- C4: for a model with a parent relationship and an own
like-filterable field, `model_like` on a like term AND-joins onto the
query one parenthesized predicate OR-joining the parent-id membership
clause (one `%s` per id the bounded sub-lookup returned) with the own
field's ILIKE clause, binds the parent ids followed by the
percent-wrapped term, and sets the overflow flag exactly when the
sub-lookup's row count reaches an active chunk bound; with no like
term everything is left unchanged with no bound values. -/
theorem C4_model_like (name lab term fk own : String)
    (rows : List (Int × String)) (chunk : Option Nat) (q : Query)
    (values : List Value) :
    (model_like
        { name := name, label := lab, like := Option.none, chunk := chunk,
          labels := [.parent fk rows, .own own] } q values =
      ({ name := name, label := lab, like := Option.none, chunk := chunk,
         labels := [.parent fk rows, .own own] }, q, values))
    ∧ ((model_like
        { name := name, label := lab, like := some term, chunk := chunk,
          labels := [.parent fk rows, .own own] } q values).2.1.wheres =
      joinFrag " AND " q.wheres
        ("(" ++ quoteIdent fk ++ " IN (" ++
          placeholders (subLookup rows term chunk).length ++ ")" ++ " OR " ++
          quoteIdent own ++ "::varchar(255) ILIKE %s" ++ ")"))
    ∧ ((model_like
        { name := name, label := lab, like := some term, chunk := chunk,
          labels := [.parent fk rows, .own own] } q values).2.2 =
      values ++ (subLookup rows term chunk).map (fun r => Value.int r.1) ++
        [Value.str ("%" ++ term ++ "%")])
    ∧ ((model_like
        { name := name, label := lab, like := some term, chunk := chunk,
          labels := [.parent fk rows, .own own] } q values).1.overflow = true ↔
      ∃ c, chunk = some c ∧
        c ≤ (rows.filter (fun r => ilikeMatch term r.2)).length) := by
  refine ⟨rfl, ?_, ?_, ?_⟩
  · simp only [model_like, likeFragment, subLookup, List.map_cons, List.map_nil,
      joinOr, addWheres, likePattern]
    cases chunk <;> simp [String.append_assoc]
  · simp only [model_like, likeFragment, subLookup, List.map_cons, List.map_nil,
      List.foldl_cons, List.foldl_nil, likePattern]
  · simp only [model_like, likeFragment, List.map_cons, List.map_nil,
      List.foldl_cons, List.foldl_nil]
    cases chunk with
    | none => simp
    | some c =>
      simp only [Bool.false_or, Bool.or_false, beq_iff_eq, List.length_take,
        Option.some.injEq]
      constructor
      · intro h
        exact ⟨c, rfl, by omega⟩
      · rintro ⟨c', rfl, hc⟩
        omega

theorem decodeRow_encode (fields : List Field) :
    ∀ values, rowOk fields values = true →
      decodeRow fields (encode fields values) = values := by
  intro values
  induction values with
  | nil => intro _; rfl
  | cons kv rest ih =>
    intro h
    simp only [rowOk, List.all_cons, Bool.and_eq_true] at h
    obtain ⟨hkv, hrest⟩ := h
    have ih' := ih hrest
    simp only [encode, decodeRow, List.map_cons] at ih' ⊢
    cases hk : kindOf fields kv.1 with
    | none => simp only [hk]; rw [ih']
    | some k =>
      simp only [hk] at hkv ⊢
      rw [decode_encode k kv.2 hkv, ih']

/-- C9: creating a row with sequence/mapping values and materializing
it back returns the original decoded values unchanged (the driver
decoding inverting the adapter encoding), and the encode step
serializes non-null sequence/mapping values to structured text — the
empty sequence to `[]` and the empty mapping to `{}` — while passing
null and every other field kind through unchanged. -/
theorem C9_roundtrip (fields : List Field) (values : List (String × Value))
    (h : rowOk fields values = true) :
    decodeRow fields (encode fields values) = values
    ∧ (∀ j, encodeValue .list (.json j) = .str (dumpsStr j))
    ∧ (∀ j, encodeValue .dict (.json j) = .str (dumpsStr j))
    ∧ (∀ k, encodeValue k .null = .null)
    ∧ (∀ k v, ¬k = .list → ¬k = .dict → encodeValue k v = v)
    ∧ dumpsStr (.arr .nil) = "[]"
    ∧ dumpsStr (.obj .nil) = "\x7b\x7d" := by
  refine ⟨decodeRow_encode fields values h, fun j => rfl, fun j => rfl,
    fun k => by cases k <;> rfl, ?_, rfl, rfl⟩
  intro k v hk1 hk2
  cases k <;> cases v <;> first
    | rfl
    | exact absurd rfl hk1
    | exact absurd rfl hk2

/-- Witness for C9 at the test's Meta-model values: a text field, the
sequence `[1]` and the mapping `{"a": 1}` survive the encode/decode
round trip, and encode produces their structured-text forms. -/
theorem C9_roundtrip_witness :
    rowOk metaFields metaValues = true
    ∧ decodeRow metaFields (encode metaFields metaValues) = metaValues
    ∧ encode metaFields metaValues =
        [("name", .str "yep"), ("stuff", .str "[1]"),
         ("things", .str "\x7b\"a\": 1\x7d")] :=
  ⟨rfl, (C9_roundtrip metaFields metaValues rfl).1, rfl⟩

end RelPg

